import Mathlib

/-!
# Moodarr backend: a shallow embedding of the query/recommendation engine

This file models the engine logic of `backend/app.py` (the `/search` filter
pipeline, the selection/limit step, `/recommend`, `/library-stats`, and the
`require_api_key` decorator) and proves the specified properties about it.

Modelling conventions:
* Python floats that carry ratings are modelled as `ℚ` (no float rounding is
  relevant to any property proved here: the code only compares and adds).
* Python `None` becomes `Option`; Python truthiness of the modelled values is
  made explicit at each use site (`None`/`""`/`0` are falsy).
* The random source `random.uniform(0, S)` is modelled as an oracle
  `u : Nat → ℚ → ℚ` giving the draw of round `i` when the remaining total
  weight is `S`; `random.shuffle` is an oracle permutation `shuf`.
-/

namespace Moodarr

/-! ## Python string and int primitives used by the code -/

/-- Model of ASCII lowercasing as used by Python `str.lower()` on the
ASCII strings exercised here. -/
def pyLower (s : String) : String :=
  ⟨s.data.map Char.toLower⟩

/-- Does `needle` occur at the head of `hay`? -/
def leadMatch : List Char → List Char → Bool
  | [], _ => true
  | _ :: _, [] => false
  | a :: as, b :: bs => a == b && leadMatch as bs

/-- Does `needle` occur anywhere in `hay`? -/
def inChars (needle : List Char) : List Char → Bool
  | [] => leadMatch needle []
  | c :: rest => leadMatch needle (c :: rest) || inChars needle rest

/-- Model of Python `needle in hay` substring containment. -/
def pyIn (needle hay : String) : Bool :=
  inChars needle.toList hay.toList

/-- Numeric value of an ASCII digit. -/
def digitVal (c : Char) : Nat :=
  c.toNat - 48

/-- Digit tail of Python `int()` parsing: digits with single underscores
allowed between digits. -/
def parseDigitsGo : List Char → Nat → Option Nat
  | [], acc => some acc
  | c :: cs, acc =>
    if c.isDigit then parseDigitsGo cs (acc * 10 + digitVal c)
    else if c == '_' then
      match cs with
      | [] => none
      | c2 :: cs2 => if c2.isDigit then parseDigitsGo cs2 (acc * 10 + digitVal c2) else none
    else none

/-- Nonempty digit sequence (with internal underscores), Python-int style. -/
def parseDigitList : List Char → Option Nat
  | [] => none
  | c :: cs => if c.isDigit then parseDigitsGo cs (digitVal c) else none

/-- Python whitespace accepted around `int()` input (ASCII part). -/
def isPyWs (c : Char) : Bool :=
  c == ' ' || c == '\t' || c == '\n' || c == '\r' || c == '\x0b' || c == '\x0c'

/-- Drop surrounding whitespace. -/
def trimWs (l : List Char) : List Char :=
  ((l.dropWhile isPyWs).reverse.dropWhile isPyWs).reverse

/-- Model of Python `int(s)`: optional surrounding whitespace, optional sign,
then digits (single underscores allowed between digits); `none` when the
parse fails (Python raises `ValueError`). -/
def pyInt (s : String) : Option Int :=
  match trimWs s.toList with
  | '+' :: rest => (parseDigitList rest).map (fun n => (n : Int))
  | '-' :: rest => (parseDigitList rest).map (fun n => -(n : Int))
  | rest => (parseDigitList rest).map (fun n => (n : Int))

/-- Model of Python `s.strip("s")`: removes all `'s'` characters from both
ends of the string (not only a trailing one). -/
def stripS (s : String) : String :=
  ⟨((s.toList.dropWhile (· == 's')).reverse.dropWhile (· == 's')).reverse⟩

/-! ## Data model (`plex_service._serialize_movie` output, engine view)

Fields the engine never reads (summary, content rating, view counts and the
opaque playback identifiers) are omitted; they do not affect any property. -/

structure Movie where
  title : String
  year : Int
  rating : Option ℚ
  genres : List String
  runtime : Int
  director : Option String
  actors : List String
  watched : Bool
  added_at : Option Int
deriving DecidableEq

/-- A mood rule from `config.yaml`, as read by the code via key membership
checks on the mapping. -/
structure MoodRule where
  genres : Option (List String)
  exclude_genres : Option (List String)
  rating_min : Option ℚ
  runtime_max : Option Int
deriving DecidableEq

/-- The `/search` query parameters after Flask coercion: absent or
uncoercible parameters are `none`. `unwatched_only` is the already-parsed
boolean (see `parseUnwatchedOnly`). -/
structure FilterSpec where
  genre : Option String
  mood : Option String
  year_start : Option Int
  year_end : Option Int
  decade : Option String
  runtime_max : Option Int
  runtime_min : Option Int
  rating_min : Option ℚ
  actor : Option String
  director : Option String
  unwatched_only : Bool
deriving DecidableEq

/-- Route-layer parsing of `unwatched_only`:
`request.args.get('unwatched_only', default='true').lower() == 'true'`. -/
def parseUnwatchedOnly (param : Option String) : Bool :=
  pyLower (param.getD ("true")) == "true"

/-- `mood_config = MOOD_MAPPINGS.get(mood) if mood else None`; the registry
is the immutable mapping loaded from configuration. -/
def moodConfig (registry : String → Option MoodRule) (mood : Option String) : Option MoodRule :=
  match mood with
  | none => none
  | some m => if m.isEmpty then none else registry m

/-- `movie.get('rating') or 0` (a `0.0` rating is falsy and maps to `0`,
the same value). -/
def ratingOr0 (m : Movie) : ℚ :=
  m.rating.getD 0

/-! ## FilterEngine: the clause predicates of the `/search` loop -/

/-- Clause 1 (`app.py:87`): `if unwatched_only and movie['watched']: continue`. -/
def passUnwatched (s : FilterSpec) (m : Movie) : Bool :=
  !(s.unwatched_only && m.watched)

/-- Clause 2 (`app.py:93`): direct genre membership, skipped when the
parameter is absent or empty (falsy). -/
def passGenre (s : FilterSpec) (m : Movie) : Bool :=
  match s.genre with
  | none => true
  | some g => if g.isEmpty then true else m.genres.contains g

/-- Clause 3 (`app.py:97`, identically `app.py:312` in `/recommend`): the
hard mood filters, one conjunct per `continue` in the code.  The mood
runtime check reads `movie.get('runtime') or 0`, the identity on the
integer `runtime` field. -/
def moodPass (cfg : Option MoodRule) (m : Movie) : Bool :=
  match cfg with
  | none => true
  | some rule =>
      (match rule.genres with
       | none => true
       | some gs => gs.any (fun g => m.genres.contains g)) &&
      (match rule.exclude_genres with
       | none => true
       | some gs => !gs.any (fun g => m.genres.contains g)) &&
      (match rule.rating_min with
       | none => true
       | some rmin => !decide (ratingOr0 m < rmin)) &&
      (match rule.runtime_max with
       | none => true
       | some rmax => !decide (rmax < m.runtime))

/-- Clause 4 (`app.py:121`): year bounds; a `0` bound is falsy and skipped. -/
def passYear (s : FilterSpec) (m : Movie) : Bool :=
  (match s.year_start with
   | none => true
   | some ys => if ys = 0 then true else !decide (m.year < ys)) &&
  (match s.year_end with
   | none => true
   | some ye => if ye = 0 then true else !decide (ye < m.year))

/-- Clause 5 (`app.py:125`): decade window, leniently parsed with
`int(decade.strip("s"))`; a parse failure is silently ignored. -/
def passDecade (s : FilterSpec) (m : Movie) : Bool :=
  match s.decade with
  | none => true
  | some d =>
    if d.isEmpty then true
    else
      match pyInt (stripS d) with
      | none => true
      | some ds => decide (ds ≤ m.year) && decide (m.year < ds + 10)

/-- Clause 6 (`app.py:134`): explicit runtime bounds; `0` is falsy/skipped. -/
def passRuntime (s : FilterSpec) (m : Movie) : Bool :=
  (match s.runtime_min with
   | none => true
   | some rmin => if rmin = 0 then true else !decide (m.runtime < rmin)) &&
  (match s.runtime_max with
   | none => true
   | some rmax => if rmax = 0 then true else !decide (rmax < m.runtime))

/-- Clause 7 (`app.py:140`): explicit rating threshold; `0` is falsy/skipped. -/
def passRating (s : FilterSpec) (m : Movie) : Bool :=
  match s.rating_min with
  | none => true
  | some rmin => if rmin = 0 then true else !decide (ratingOr0 m < rmin)

/-- Clause 8 (`app.py:146`): case-insensitive actor substring against any
actor name. -/
def passActor (s : FilterSpec) (m : Movie) : Bool :=
  match s.actor with
  | none => true
  | some a => if a.isEmpty then true else m.actors.any (fun x => pyIn (pyLower a) (pyLower x))

/-- Clause 9 (`app.py:150`): case-insensitive director substring;
`movie.get('director') or ''` maps an absent director to the empty string. -/
def passDirector (s : FilterSpec) (m : Movie) : Bool :=
  match s.director with
  | none => true
  | some d => if d.isEmpty then true else pyIn (pyLower d) (pyLower (m.director.getD ("")))

/-- The `/search` filter loop (`app.py:85`): each failing clause is a
`continue`, a surviving movie is appended in input order. -/
def filterMovies (reg : String → Option MoodRule) (s : FilterSpec) : List Movie → List Movie
  | [] => []
  | movie :: rest =>
    if !passUnwatched s movie then filterMovies reg s rest
    else if !passGenre s movie then filterMovies reg s rest
    else if !moodPass (moodConfig reg s.mood) movie then filterMovies reg s rest
    else if !passYear s movie then filterMovies reg s rest
    else if !passDecade s movie then filterMovies reg s rest
    else if !passRuntime s movie then filterMovies reg s rest
    else if !passRating s movie then filterMovies reg s rest
    else if !passActor s movie then filterMovies reg s rest
    else if !passDirector s movie then filterMovies reg s rest
    else movie :: filterMovies reg s rest

/-- Conjunction of the nine §4.2 clauses as the code implements them. -/
def movieMatches (reg : String → Option MoodRule) (s : FilterSpec) (m : Movie) : Bool :=
  passUnwatched s m && passGenre s m && moodPass (moodConfig reg s.mood) m &&
  passYear s m && passDecade s m && passRuntime s m && passRating s m &&
  passActor s m && passDirector s m

theorem filterMovies_nil (reg : String → Option MoodRule) (s : FilterSpec) :
    filterMovies reg s [] = [] := rfl

theorem filterMovies_cons (reg : String → Option MoodRule) (s : FilterSpec)
    (m : Movie) (rest : List Movie) :
    filterMovies reg s (m :: rest) =
      if movieMatches reg s m then m :: filterMovies reg s rest
      else filterMovies reg s rest := by
  simp only [filterMovies, movieMatches]
  by_cases h1 : passUnwatched s m = true <;>
    by_cases h2 : passGenre s m = true <;>
    by_cases h3 : moodPass (moodConfig reg s.mood) m = true <;>
    by_cases h4 : passYear s m = true <;>
    by_cases h5 : passDecade s m = true <;>
    by_cases h6 : passRuntime s m = true <;>
    by_cases h7 : passRating s m = true <;>
    by_cases h8 : passActor s m = true <;>
    by_cases h9 : passDirector s m = true <;>
    simp [h1, h2, h3, h4, h5, h6, h7, h8, h9]

theorem filterMovies_eq_filter (reg : String → Option MoodRule) (s : FilterSpec)
    (ms : List Movie) :
    filterMovies reg s ms = ms.filter (movieMatches reg s) := by
  induction ms with
  | nil => rfl
  | cons m rest ih =>
    rw [filterMovies_cons, List.filter_cons, ih]

theorem movieMatches_iff (reg : String → Option MoodRule) (s : FilterSpec) (m : Movie) :
    movieMatches reg s m = true ↔
      (passUnwatched s m = true ∧ passGenre s m = true ∧
       moodPass (moodConfig reg s.mood) m = true ∧ passYear s m = true ∧
       passDecade s m = true ∧ passRuntime s m = true ∧ passRating s m = true ∧
       passActor s m = true ∧ passDirector s m = true) := by
  simp [movieMatches, and_assoc]

/-! ## Concrete sample data used in closed instances -/

/-- A `/search` request with every query parameter absent: note the route
default for `unwatched_only` is the string value `'true'`. -/
def emptySpec : FilterSpec :=
  { genre := none, mood := none, year_start := none, year_end := none,
    decade := none, runtime_max := none, runtime_min := none, rating_min := none,
    actor := none, director := none, unwatched_only := parseUnwatchedOnly none }

/-- A watched movie from 1995. -/
def watchedMovie : Movie :=
  { title := "Heat", year := 1995, rating := some 8, genres := ["Action", "Crime"],
    runtime := 170, director := some ("Michael Mann"),
    actors := ["Al Pacino", "Robert De Niro"], watched := true, added_at := some 100 }

/-- An unwatched movie from 1980. -/
def oldMovie : Movie :=
  { title := "The Shining", year := 1980, rating := some 9, genres := ["Horror"],
    runtime := 146, director := some ("Stanley Kubrick"),
    actors := ["Jack Nicholson"], watched := false, added_at := some 50 }

/-! ## C1: the filter returns exactly the matching subset, in input order -/

/-- C1: for every movie list, the `/search` filter step returns exactly the
movies satisfying all nine §4.2 clauses, in input order; in particular on a
single-element list `[m]` it returns `[m]` iff every clause holds for `m`. -/
theorem c1_filter_returns_exactly_matching_subset (reg : String → Option MoodRule)
    (s : FilterSpec) (ms : List Movie) :
    filterMovies reg s ms = ms.filter (movieMatches reg s) ∧
    ∀ m : Movie, filterMovies reg s [m] = [m] ↔
      (passUnwatched s m = true ∧ passGenre s m = true ∧
       moodPass (moodConfig reg s.mood) m = true ∧ passYear s m = true ∧
       passDecade s m = true ∧ passRuntime s m = true ∧ passRating s m = true ∧
       passActor s m = true ∧ passDirector s m = true) := by
  refine ⟨filterMovies_eq_filter reg s ms, fun m => ?_⟩
  rw [filterMovies_cons reg s m [], filterMovies_nil, ← movieMatches_iff]
  by_cases h : movieMatches reg s m = true <;> simp [h]

/-! ## C5: absent `unwatched_only` (corrected) -/

/-- C5 as stated is refuted: when `unwatched_only` is absent, the route
default is the string `'true'`, so the watched-status clause does constrain:
a watched movie is filtered out. -/
theorem c5_counterexample :
    parseUnwatchedOnly none = true ∧
    passUnwatched emptySpec watchedMovie = false ∧
    filterMovies (fun _ => none) emptySpec [watchedMovie] = [] := by
  exact ⟨rfl, rfl, rfl⟩

/-- C5 amended: when `unwatched_only` is absent it defaults to true, so the
watched-status clause passes exactly the unwatched movies; the constraint is
lifted only by an explicit parameter whose lowercased value is not
`"true"`. -/
theorem c5_amended_absent_defaults_to_true (m : Movie) (v : String)
    (hv : pyLower v ≠ "true") :
    passUnwatched { emptySpec with unwatched_only := parseUnwatchedOnly none } m
      = !m.watched ∧
    passUnwatched { emptySpec with unwatched_only := parseUnwatchedOnly (some v) } m
      = true := by
  have h2 : parseUnwatchedOnly (some v) = false := by
    unfold parseUnwatchedOnly
    simp only [Option.getD_some]
    exact beq_eq_false_iff_ne.mpr hv
  have h1 : parseUnwatchedOnly none = true := rfl
  constructor
  · cases hw : m.watched <;> simp [passUnwatched, h1, hw]
  · simp [passUnwatched, h2]

theorem c5_amended_witness :
    pyLower ("false") ≠ "true" ∧
    (passUnwatched { emptySpec with unwatched_only := parseUnwatchedOnly none }
        watchedMovie = !watchedMovie.watched ∧
     passUnwatched { emptySpec with unwatched_only := parseUnwatchedOnly (some ("false")) }
        watchedMovie = true) :=
  ⟨by decide, c5_amended_absent_defaults_to_true watchedMovie ("false") (by decide)⟩

/-! ## C6: decade parsing (corrected) -/

/-- Decade parsing as the claim words it, for comparison with the code:
strip one trailing 's' (if any), then parse the remainder. -/
def claimDecadeParse (d : String) : Option Int :=
  match d.data.reverse with
  | 's' :: rest => pyInt ⟨rest.reverse⟩
  | _ => pyInt d

/-- C6 as stated is refuted: `"s1990"` has no trailing 's', so by the claim
it is unparsable and the decade clause should impose no constraint on any
movie; but the code's `decade.strip("s")` removes 's' from both ends,
parses `1990`, and filters out a movie from 1980. -/
theorem c6_counterexample :
    claimDecadeParse ("s1990") = none ∧
    passDecade { emptySpec with decade := some ("s1990") } oldMovie = false := by
  exact ⟨rfl, rfl⟩

/-- C6 amended: the code strips ALL 's' characters from BOTH ends of the
decade string (Python `str.strip("s")`), then parses; on success the movie
must lie in `[D, D+10)`, on failure the clause imposes no constraint and
filtering does not fail (the clause is total).  `"1990s"` constrains to
`[1990, 2000)` and `"199x"` imposes no constraint. -/
theorem c6_amended_decade_strip_both_ends (d : String) (m : Movie) :
    passDecade { emptySpec with decade := some d } m =
      (match pyInt (stripS d) with
       | none => true
       | some ds => decide (ds ≤ m.year) && decide (m.year < ds + 10)) ∧
    (passDecade { emptySpec with decade := some ("1990s") } m = true ↔
      (1990 ≤ m.year ∧ m.year < 2000)) ∧
    passDecade { emptySpec with decade := some ("199x") } m = true := by
  refine ⟨?_, ?_, rfl⟩
  · by_cases hd : d.isEmpty
    · have he : d = "" := (String.isEmpty_iff d).mp hd
      subst he
      rfl
    · simp [passDecade, hd]
  · show (decide ((1990 : Int) ≤ m.year) && decide (m.year < 1990 + 10)) = true ↔ _
    simp only [Bool.and_eq_true, decide_eq_true_eq]
    omega

/-! ## C8: unknown mood names are a no-op -/

/-- C8: filtering with a mood name that does not resolve in the registry
gives the same result as filtering with no mood at all. -/
theorem c8_unknown_mood_is_noop (reg : String → Option MoodRule) (s : FilterSpec)
    (name : String) (hname : reg name = none) (ms : List Movie) :
    filterMovies reg { s with mood := some name } ms =
      filterMovies reg { s with mood := none } ms := by
  have hcfg : moodConfig reg (some name) = moodConfig reg none := by
    by_cases h : name.isEmpty <;> simp [moodConfig, h, hname]
  rw [filterMovies_eq_filter, filterMovies_eq_filter]
  refine List.filter_congr (fun m _ => ?_)
  simp [movieMatches, passUnwatched, passGenre, passYear, passDecade, passRuntime,
    passRating, passActor, passDirector, hcfg]

theorem c8_witness :
    ((fun _ => (none : Option MoodRule)) ("cozy") = none) ∧
    filterMovies (fun _ => none) { emptySpec with mood := some ("cozy") } [watchedMovie] =
      filterMovies (fun _ => none) { emptySpec with mood := none } [watchedMovie] :=
  ⟨rfl, c8_unknown_mood_is_noop (fun _ => none) emptySpec ("cozy") rfl [watchedMovie]⟩

/-! ## SelectionEngine: sorting, Python slices, weighted random sampling -/

/-- Stable insertion: `x` stays before `y` exactly when `bef x y`. -/
def stableInsert {α : Type} (bef : α → α → Bool) (x : α) : List α → List α
  | [] => [x]
  | y :: ys => if bef x y then x :: y :: ys else y :: stableInsert bef x ys

/-- Insertion sort with the stable "may stay before" comparison.  Python
`list.sort` is stable, and on a total preorder key the stable result is
unique, so this models `sort(key=..., reverse=True)` (with
`bef x y = (key y ≤ key x)`) and the ascending variant faithfully. -/
def stableSort {α : Type} (bef : α → α → Bool) : List α → List α
  | [] => []
  | x :: xs => stableInsert bef x (stableSort bef xs)

/-- `x.get('added_at') or 0`. -/
def addedOr0 (m : Movie) : Int :=
  m.added_at.getD 0

/-- The sorting step (`app.py:157`): explicit strategies are Python stable
sorts on a key; `random` (and any unrecognized value) leaves the order
unchanged. -/
def sortStep (sort_order : String) (ms : List Movie) : List Movie :=
  if sort_order == "rating" then stableSort (fun a b => decide (ratingOr0 b ≤ ratingOr0 a)) ms
  else if sort_order == "recent" then stableSort (fun a b => decide (addedOr0 b ≤ addedOr0 a)) ms
  else if sort_order == "oldest" then stableSort (fun a b => decide (a.year ≤ b.year)) ms
  else ms

/-- Python slice `xs[:k]` for an arbitrary (possibly negative) `k`: a
negative `k` keeps all but the last `|k|` elements. -/
def pySliceTo {α : Type} (k : Int) (xs : List α) : List α :=
  if 0 ≤ k then xs.take k.toNat else xs.take (xs.length - (-k).toNat)

/-- Candidate weight (`app.py:173`): `m.get('rating') or 5.0` — the rating
when present and nonzero, else the default 5.0. -/
def weight (m : Movie) : ℚ :=
  match m.rating with
  | none => 5
  | some r => if r = 0 then 5 else r

/-- Sum of the weights of a pool, `sum(w for m, w in temp_pool)`. -/
def totalWeight (pool : List Movie) : ℚ :=
  (pool.map weight).sum

/-- The inner walk (`app.py:182`): accumulate weights until the running sum
reaches or exceeds the draw (`current >= pick_val`), return the selected
movie and the pool with it removed (`temp_pool.pop(i)`); `none` when the
walk falls off the end without a `break`. -/
def walkPick (pick : ℚ) (current : ℚ) : List Movie → Option (Movie × List Movie)
  | [] => none
  | m :: rest =>
    if pick ≤ current + weight m then some (m, rest)
    else (walkPick pick (current + weight m) rest).map (fun p => (p.1, m :: p.2))

/-- The outer loop (`app.py:180`): a fixed number of rounds; each round
draws `u i total` (modelling `random.uniform(0, total)` at round `i`),
walks the remaining pool and removes the selected movie.  A failed walk
appends nothing, exactly as in the code. -/
def weightedRounds (u : Nat → ℚ → ℚ) : Nat → Nat → List Movie → List Movie
  | 0, _, _ => []
  | k + 1, i, pool =>
    match walkPick (u i (totalWeight pool)) 0 pool with
    | none => weightedRounds u k (i + 1) pool
    | some (m, pool2) => m :: weightedRounds u k (i + 1) pool2

/-- The limit/selection step (`app.py:169`): for `random` on a non-empty
list, weighted sampling without replacement over `min(limit, n)` rounds
when the total weight is positive, else `random.shuffle` + slice; for every
other strategy a plain Python slice `[:limit]`. -/
def selectStep (u : Nat → ℚ → ℚ) (shuf : List Movie → List Movie)
    (sort_order : String) (limit : Int) (ms : List Movie) : List Movie :=
  if sort_order == "random" && !ms.isEmpty then
    if 0 < totalWeight ms then
      weightedRounds u (min limit (ms.length : Int)).toNat 0 ms
    else pySliceTo limit (shuf ms)
  else pySliceTo limit ms

/-- Sorting then limiting, `app.py:156` through `app.py:194`. -/
def searchSelect (u : Nat → ℚ → ℚ) (shuf : List Movie → List Movie)
    (sort_order : String) (limit : Int) (ms : List Movie) : List Movie :=
  selectStep u shuf sort_order limit (sortStep sort_order ms)

theorem totalWeight_cons (m : Movie) (rest : List Movie) :
    totalWeight (m :: rest) = weight m + totalWeight rest := by
  simp [totalWeight]

theorem totalWeight_nonneg (pool : List Movie) (h : ∀ m ∈ pool, 0 ≤ weight m) :
    0 ≤ totalWeight pool := by
  induction pool with
  | nil => simp [totalWeight]
  | cons m rest ih =>
    rw [totalWeight_cons]
    have hm := h m (List.mem_cons_self m rest)
    have hr := ih (fun x hx => h x (List.mem_cons_of_mem m hx))
    linarith

theorem totalWeight_pos (pool : List Movie) (hne : pool ≠ [])
    (h : ∀ m ∈ pool, 0 < weight m) : 0 < totalWeight pool := by
  cases pool with
  | nil => exact absurd rfl hne
  | cons m rest =>
    rw [totalWeight_cons]
    have hm := h m (List.mem_cons_self m rest)
    have hr := totalWeight_nonneg rest
      (fun x hx => le_of_lt (h x (List.mem_cons_of_mem m hx)))
    linarith

/-- A rating that is nonnegative (whenever present) yields a positive
weight: absent and zero ratings get the 5.0 default. -/
theorem weight_pos_of_rating_nonneg (m : Movie) (h : 0 ≤ ratingOr0 m) :
    0 < weight m := by
  unfold weight
  unfold ratingOr0 at h
  cases hr : m.rating with
  | none => norm_num
  | some r =>
    rw [hr] at h
    simp only [Option.getD_some] at h
    by_cases h0 : r = 0 <;> simp [h0]
    · exact lt_of_le_of_ne h (Ne.symm h0)

/-- The walk succeeds whenever the draw does not exceed the remaining
cumulative weight. -/
theorem walkPick_isSome (pool : List Movie) :
    ∀ pick current, pool ≠ [] → pick ≤ current + totalWeight pool →
      (walkPick pick current pool).isSome = true := by
  induction pool with
  | nil => intro pick current hne _; exact absurd rfl hne
  | cons m rest ih =>
    intro pick current _ hle
    rw [totalWeight_cons] at hle
    simp only [walkPick]
    by_cases h : pick ≤ current + weight m
    · simp [h]
    · cases rest with
      | nil =>
        exfalso
        simp [totalWeight] at hle
        exact h (by linarith)
      | cons m2 rest2 =>
        have hs := ih pick (current + weight m) (by simp) (by linarith)
        cases hw : walkPick pick (current + weight m) (m2 :: rest2) with
        | none => rw [hw] at hs; simp at hs
        | some p => simp [h, hw]

/-- A successful walk returns a movie of the pool and the pool minus that
occurrence: the input is a permutation of the selected movie consed onto
the leftover pool. -/
theorem walkPick_perm (pool : List Movie) :
    ∀ pick current m pool2, walkPick pick current pool = some (m, pool2) →
      pool.Perm (m :: pool2) := by
  induction pool with
  | nil => intro pick current m pool2 h; simp [walkPick] at h
  | cons y rest ih =>
    intro pick current m pool2 h
    simp only [walkPick] at h
    by_cases hc : pick ≤ current + weight y
    · rw [if_pos hc] at h
      simp only [Option.some.injEq, Prod.mk.injEq] at h
      obtain ⟨h1, h2⟩ := h
      subst h1; subst h2
      exact List.Perm.refl _
    · rw [if_neg hc] at h
      cases hw : walkPick pick (current + weight y) rest with
      | none => rw [hw] at h; simp at h
      | some p =>
        rw [hw] at h
        simp only [Option.map, Option.some.injEq, Prod.mk.injEq] at h
        obtain ⟨h1, h2⟩ := h
        have hperm := ih pick (current + weight y) p.1 p.2 (by rw [hw])
        subst h1
        rw [← h2]
        exact List.Perm.trans (List.Perm.cons y hperm) (List.Perm.swap p.1 y p.2)

/-- A subpermutation of a duplicate-free list is duplicate-free. -/
theorem nodup_of_subperm {l1 l2 : List Movie} (h : List.Subperm l1 l2)
    (hnd : l2.Nodup) : l1.Nodup := by
  obtain ⟨l, hperm, hsub⟩ := h
  exact hperm.nodup_iff.mp (hnd.sublist hsub)

/-- Each successful round removes exactly one movie from the pool: over
`k ≤ n` rounds with positive weights and in-range draws, the sampler
returns `k` movies drawn from the pool without replacement. -/
theorem weightedRounds_spec (u : Nat → ℚ → ℚ)
    (hu : ∀ i S, 0 < S → 0 ≤ u i S ∧ u i S < S) :
    ∀ k i (pool : List Movie), k ≤ pool.length → (∀ m ∈ pool, 0 < weight m) →
      (weightedRounds u k i pool).length = k ∧
      List.Subperm (weightedRounds u k i pool) pool := by
  intro k
  induction k with
  | zero => intro i pool _ _; exact ⟨rfl, List.nil_subperm⟩
  | succ k ih =>
    intro i pool hk hpos
    have hne : pool ≠ [] := by
      intro hnil; rw [hnil] at hk; simp at hk
    have htw : 0 < totalWeight pool := totalWeight_pos pool hne hpos
    obtain ⟨hd0, hdlt⟩ := hu i (totalWeight pool) htw
    have hsome : (walkPick (u i (totalWeight pool)) 0 pool).isSome = true :=
      walkPick_isSome pool _ 0 hne (by rw [zero_add]; exact le_of_lt hdlt)
    obtain ⟨p, hp⟩ := Option.isSome_iff_exists.mp hsome
    obtain ⟨m, pool2⟩ := p
    have hperm : pool.Perm (m :: pool2) := walkPick_perm pool _ 0 m pool2 hp
    have hlen2 : pool.length = pool2.length + 1 := by
      have := hperm.length_eq
      simpa using this
    have hpos2 : ∀ x ∈ pool2, 0 < weight x := fun x hx =>
      hpos x (hperm.mem_iff.mpr (List.mem_cons_of_mem m hx))
    have hk2 : k ≤ pool2.length := by omega
    obtain ⟨ihlen, ihsub⟩ := ih (i + 1) pool2 hk2 hpos2
    simp only [weightedRounds, hp]
    constructor
    · simp [ihlen]
    · exact ((List.subperm_cons m).mpr ihsub).trans hperm.symm.subperm

/-- The `random` strategy on an unsorted list is the identity sort. -/
theorem sortStep_random (ms : List Movie) : sortStep ("random") ms = ms := rfl

/-- On the `random` path with a positive total weight, a non-positive limit
runs zero rounds. -/
theorem selectStep_random_nonpos (u : Nat → ℚ → ℚ) (shuf : List Movie → List Movie)
    (limit : Int) (xs : List Movie) (hle : limit ≤ 0) (htw : 0 < totalWeight xs) :
    selectStep u shuf ("random") limit xs = [] := by
  have hne : xs ≠ [] := by
    intro hnil
    rw [hnil] at htw
    simp [totalWeight] at htw
  have hE : xs.isEmpty = false := by
    cases xs with
    | nil => exact absurd rfl hne
    | cons _ _ => rfl
  have hmin : (min limit (xs.length : Int)).toNat = 0 := by
    have h1 : min limit (xs.length : Int) ≤ limit := min_le_left _ _
    omega
  unfold selectStep
  rw [hE]
  simp only [Bool.not_false, Bool.and_true]
  rw [if_pos (by rfl), if_pos htw, hmin]
  rfl

/-! ## C2: the weighted random selection -/

/-- C2: for the `random` strategy on a non-empty list with positive limit:
each weight is the rating when present and nonzero, else 5.0 (so with
nonnegative ratings every weight is positive); the sampler runs
`min(limit, n)` rounds, each drawing uniformly in `[0, remaining total)`,
walking until the running sum reaches the draw and removing the pick; the
result is exactly `min(limit, n)` distinct movies from the input.  When the
total weight is `0`, the code instead shuffles uniformly and takes the
first `limit`, again `min(limit, n)` distinct movies of the input. -/
theorem c2_weighted_random_selection (u : Nat → ℚ → ℚ) (shuf : List Movie → List Movie)
    (hu : ∀ i S, 0 < S → 0 ≤ u i S ∧ u i S < S)
    (hshuf : ∀ l : List Movie, (shuf l).Perm l)
    (ms : List Movie) (hne : ms ≠ []) (limit : Int) (hl : 0 < limit) :
    ((∀ m ∈ ms, 0 ≤ ratingOr0 m) →
      (selectStep u shuf ("random") limit ms).length = min limit.toNat ms.length ∧
      List.Subperm (selectStep u shuf ("random") limit ms) ms ∧
      (ms.Nodup → (selectStep u shuf ("random") limit ms).Nodup)) ∧
    (totalWeight ms = 0 →
      selectStep u shuf ("random") limit ms = pySliceTo limit (shuf ms) ∧
      (selectStep u shuf ("random") limit ms).length = min limit.toNat ms.length ∧
      List.Subperm (selectStep u shuf ("random") limit ms) ms) := by
  have hE : ms.isEmpty = false := by
    cases ms with
    | nil => exact absurd rfl hne
    | cons _ _ => rfl
  have hsel : selectStep u shuf ("random") limit ms =
      if 0 < totalWeight ms then
        weightedRounds u (min limit (ms.length : Int)).toNat 0 ms
      else pySliceTo limit (shuf ms) := by
    unfold selectStep
    rw [hE]
    simp only [Bool.not_false, Bool.and_true]
    rw [if_pos (by rfl)]
  have hmin : (min limit (ms.length : Int)).toNat = min limit.toNat ms.length := by
    rcases le_total limit (ms.length : Int) with h | h
    · rw [min_eq_left h]
      have := Int.toNat_le_toNat h
      omega
    · rw [min_eq_right h]
      have := Int.toNat_le_toNat h
      omega
  constructor
  · intro hr
    have hpos : ∀ m ∈ ms, 0 < weight m :=
      fun m hm => weight_pos_of_rating_nonneg m (hr m hm)
    have htw : 0 < totalWeight ms := totalWeight_pos ms hne hpos
    rw [hsel, if_pos htw]
    have hk : (min limit (ms.length : Int)).toNat ≤ ms.length := by
      have h1 : min limit (ms.length : Int) ≤ (ms.length : Int) := min_le_right _ _
      omega
    obtain ⟨hlen, hsub⟩ := weightedRounds_spec u hu _ 0 ms hk hpos
    exact ⟨by rw [hlen, hmin], hsub, fun hnd => nodup_of_subperm hsub hnd⟩
  · intro htw0
    have hnlt : ¬ 0 < totalWeight ms := by rw [htw0]; exact lt_irrefl 0
    rw [hsel, if_neg hnlt]
    have hslice : pySliceTo limit (shuf ms) = (shuf ms).take limit.toNat := by
      unfold pySliceTo
      rw [if_pos (le_of_lt hl)]
    refine ⟨rfl, ?_, ?_⟩
    · rw [hslice, List.length_take, (hshuf ms).length_eq]
    · rw [hslice]
      exact ((List.take_sublist _ _).subperm).trans (hshuf ms).subperm

theorem c2_witness :
    (∀ m ∈ ([oldMovie] : List Movie), 0 ≤ ratingOr0 m) ∧
    ((selectStep (fun _ _ => 0) id ("random") 1 [oldMovie]).length
        = min (1 : Int).toNat [oldMovie].length ∧
     List.Subperm (selectStep (fun _ _ => 0) id ("random") 1 [oldMovie]) [oldMovie] ∧
     (([oldMovie] : List Movie).Nodup →
        (selectStep (fun _ _ => 0) id ("random") 1 [oldMovie]).Nodup)) := by
  have hr : ∀ m ∈ ([oldMovie] : List Movie), 0 ≤ ratingOr0 m := by
    intro m hm
    rw [List.mem_singleton] at hm
    subst hm
    decide
  exact ⟨hr, (c2_weighted_random_selection (fun _ _ => 0) id
      (fun i S hS => ⟨le_refl 0, hS⟩) (fun l => List.Perm.refl l)
      [oldMovie] (List.cons_ne_nil _ _) 1 (by decide)).1 hr⟩

/-! ## C4: non-positive limits (corrected) -/

/-- C4 as stated is refuted: with the `rating` strategy and `limit = -1`,
the code computes the Python slice `filtered_movies[:-1]`, which keeps all
but the last movie — two movies yield a non-empty result, not an empty
one. -/
theorem c4_counterexample :
    searchSelect (fun _ _ => 0) id ("rating") (-1) [oldMovie, watchedMovie] ≠ [] := by
  decide

/-- C4 amended: a limit of exactly `0` yields an empty result for every
strategy, and the `random` strategy (when the total weight is positive)
yields an empty result for every `limit ≤ 0`; but every other strategy
applies the Python slice `[:limit]`, so a negative limit keeps all but the
last `|limit|` movies, which is non-empty when `|limit| < n`. -/
theorem c4_amended_nonpositive_limit (u : Nat → ℚ → ℚ) (shuf : List Movie → List Movie)
    (sort_order : String) (limit : Int) (ms : List Movie) :
    (limit = 0 → searchSelect u shuf sort_order limit ms = []) ∧
    (sort_order = "random" → limit ≤ 0 → 0 < totalWeight ms →
      searchSelect u shuf sort_order limit ms = []) ∧
    (sort_order ≠ "random" →
      searchSelect u shuf sort_order limit ms = pySliceTo limit (sortStep sort_order ms)) := by
  refine ⟨?_, ?_, ?_⟩
  · intro h0
    subst h0
    unfold searchSelect selectStep
    by_cases hb : (sort_order == "random" && !(sortStep sort_order ms).isEmpty) = true
    · rw [if_pos hb]
      by_cases htw : 0 < totalWeight (sortStep sort_order ms)
      · rw [if_pos htw]
        have hmin : (min (0 : Int) ((sortStep sort_order ms).length : Int)).toNat = 0 := by
          have h1 : min (0 : Int) ((sortStep sort_order ms).length : Int) ≤ 0 :=
            min_le_left _ _
          omega
        rw [hmin]
        rfl
      · rw [if_neg htw]
        simp [pySliceTo]
    · rw [if_neg hb]
      simp [pySliceTo]
  · intro hrand hle htw
    subst hrand
    unfold searchSelect
    rw [sortStep_random]
    exact selectStep_random_nonpos u shuf limit ms hle htw
  · intro hner
    unfold searchSelect selectStep
    have hb : (sort_order == "random") = false := beq_eq_false_iff_ne.mpr hner
    rw [hb]
    simp

theorem c4_amended_witness :
    ((0 : Int) = 0) ∧
    searchSelect (fun _ _ => 0) id ("oldest") 0 [oldMovie, watchedMovie] = [] :=
  ⟨rfl, (c4_amended_nonpositive_limit (fun _ _ => 0) id ("oldest") 0
      [oldMovie, watchedMovie]).1 rfl⟩

/-! ## RecommendationEngine (`/recommend`, `app.py:259`) -/

/-- A watch-history entry as returned by `get_history`. -/
structure HistoryEntry where
  title : String
  genres : List String
  rating : Option ℚ
  mediaType : String
deriving DecidableEq

/-- `genre_counts[g] = genre_counts.get(g, 0) + 1` on a Python dict:
insertion-ordered, updates in place, new keys appended at the end. -/
def bumpCount (counts : List (String × Nat)) (g : String) : List (String × Nat) :=
  match counts with
  | [] => [(g, 1)]
  | (k, v) :: rest => if k = g then (k, v + 1) :: rest else (k, v) :: bumpCount rest g

/-- Genre frequency counts over the history (`app.py:272`), in first-seen
order. -/
def genreCounts (hist : List HistoryEntry) : List (String × Nat) :=
  hist.foldl (fun acc item => item.genres.foldl bumpCount acc) []

/-- `sorted(genre_counts.items(), key=lambda x: x[1], reverse=True)` (a
Python stable descending sort on the count) sliced to the first three
names (`app.py:285`). -/
def favoriteGenres (hist : List HistoryEntry) : List String :=
  ((stableSort (fun a b => decide (b.2 ≤ a.2)) (genreCounts hist)).take 3).map Prod.fst

/-- The score of a surviving candidate (`app.py:306`): base 10 when a mood
rule resolved, plus 2 per distinct candidate genre that is a top-3 history
genre (the code iterates over `set(movie['genres'])`), plus the rating
(0 if absent). -/
def candidateScore (cfg : Option MoodRule) (favs : List String) (m : Movie) : ℚ :=
  (if cfg.isSome then 10 else 0)
    + 2 * ((m.genres.dedup.filter (fun g => favs.contains g)).length : ℚ)
    + ratingOr0 m

/-- The candidate loop of `/recommend` (`app.py:298`): skip watched movies,
apply the hard mood filters (same checks as the `/search` mood block),
score the survivors. -/
def recCandidates (cfg : Option MoodRule) (favs : List String) :
    List Movie → List (Movie × ℚ)
  | [] => []
  | movie :: rest =>
    if movie.watched then recCandidates cfg favs rest
    else if !moodPass cfg movie then recCandidates cfg favs rest
    else (movie, candidateScore cfg favs movie) :: recCandidates cfg favs rest

/-- `/recommend` after history retrieval (`app.py:272` onward): preference
profile, candidate scoring, stable sort by score descending
(`candidates.sort(key=lambda x: x[1], reverse=True)`), slice to `count`,
keep the movies. -/
def recommendMovies (reg : String → Option MoodRule) (hist : List HistoryEntry)
    (catalog : List Movie) (mood : Option String) (count : Int) : List Movie :=
  (pySliceTo count
      (stableSort (fun a b => decide (b.2 ≤ a.2))
        (recCandidates (moodConfig reg mood) (favoriteGenres hist) catalog))).map
    Prod.fst

theorem recCandidates_eq_filter_map (cfg : Option MoodRule) (favs : List String)
    (catalog : List Movie) :
    recCandidates cfg favs catalog =
      (catalog.filter (fun m => !m.watched && moodPass cfg m)).map
        (fun m => (m, candidateScore cfg favs m)) := by
  induction catalog with
  | nil => rfl
  | cons m rest ih =>
    by_cases hw : m.watched = true <;> by_cases hm : moodPass cfg m = true <;>
      simp [recCandidates, List.filter_cons, hw, hm, ih]

/-! ## C3: the recommendation pipeline -/

/-- C3: `/recommend` considers exactly the unwatched catalog movies,
excludes (rather than down-scores) candidates failing the §4.2 step-3 mood
filters, scores survivors as mood base + 2 per shared top-3 genre + rating,
and returns the stable descending sort by score truncated to `count`. -/
theorem c3_recommend_pipeline (reg : String → Option MoodRule) (hist : List HistoryEntry)
    (catalog : List Movie) (mood : Option String) (count : Int) (hc : 0 ≤ count) :
    recommendMovies reg hist catalog mood count =
      ((stableSort (fun a b => decide (b.2 ≤ a.2))
          ((catalog.filter (fun m => !m.watched && moodPass (moodConfig reg mood) m)).map
            (fun m => (m, candidateScore (moodConfig reg mood) (favoriteGenres hist) m)))).map
        Prod.fst).take count.toNat := by
  unfold recommendMovies
  rw [recCandidates_eq_filter_map]
  unfold pySliceTo
  rw [if_pos hc, List.map_take]

theorem c3_witness :
    ((0 : Int) ≤ 2) ∧
    recommendMovies (fun _ => none) [] [watchedMovie, oldMovie] none 2 =
      ((stableSort (fun a b => decide (b.2 ≤ a.2))
          (([watchedMovie, oldMovie].filter
              (fun m => !m.watched && moodPass (moodConfig (fun _ => none) none) m)).map
            (fun m => (m, candidateScore (moodConfig (fun _ => none) none)
                (favoriteGenres []) m)))).map Prod.fst).take (2 : Int).toNat :=
  ⟨by decide,
   c3_recommend_pipeline (fun _ => none) [] [watchedMovie, oldMovie] none 2 (by decide)⟩

/-! ## C7: the preference profile and its effect on scores -/

/-- History entries carrying one genre each. -/
def histActionA : HistoryEntry :=
  { title := "H1", genres := ["Action"], rating := none, mediaType := "movie" }

def histActionB : HistoryEntry :=
  { title := "H2", genres := ["Action"], rating := none, mediaType := "movie" }

def histComedy : HistoryEntry :=
  { title := "H3", genres := ["Comedy"], rating := none, mediaType := "movie" }

/-- C7: the profile is the top-3 genres by descending count with
first-seen tie-breaking, so history genres `["Action","Action","Comedy"]`
rank Action before Comedy; and adding one top-3 genre to a candidate that
lacks it raises its score by exactly 2 (hence by at least 2). -/
theorem c7_preference_profile :
    favoriteGenres [histActionA, histActionB, histComedy] = ["Action", "Comedy"] ∧
    ∀ (cfg : Option MoodRule) (favs : List String) (m : Movie) (g : String),
      g ∈ favs → g ∉ m.genres →
      candidateScore cfg favs { m with genres := g :: m.genres }
        = candidateScore cfg favs m + 2 := by
  constructor
  · decide
  · intro cfg favs m g hg hng
    unfold candidateScore
    have hgen : ({ m with genres := g :: m.genres } : Movie).genres = g :: m.genres := rfl
    have hrat : ratingOr0 { m with genres := g :: m.genres } = ratingOr0 m := rfl
    have hd : (g :: m.genres).dedup = g :: m.genres.dedup :=
      List.dedup_cons_of_not_mem hng
    have hgb : favs.contains g = true := by
      simpa using hg
    rw [hgen, hrat, hd, List.filter_cons, if_pos hgb]
    push_cast [List.length_cons]
    ring

theorem c7_witness :
    (("Action" ∈ (["Action"] : List String)) ∧ ("Action" ∉ oldMovie.genres)) ∧
    candidateScore none ["Action"] { oldMovie with genres := "Action" :: oldMovie.genres }
      = candidateScore none ["Action"] oldMovie + 2 :=
  ⟨⟨by decide, by decide⟩,
   c7_preference_profile.2 none ["Action"] oldMovie ("Action") (by decide) (by decide)⟩

/-! ## StatsReporter (`/library-stats`, `app.py:342`) -/

/-- A library snapshot as returned by `get_library_data`: the movie list
and the refresh timestamp read by `data.get('last_refresh')`. -/
structure Snapshot where
  movies : List Movie
  last_refresh : String
deriving DecidableEq

/-- Lexicographic comparison of character lists by code point: the order
Python's `sorted` uses on strings. -/
def charsLt : List Char → List Char → Bool
  | [], [] => false
  | [], _ :: _ => true
  | _ :: _, [] => false
  | a :: as, b :: bs => if a = b then charsLt as bs else decide (a < b)

/-- Python string comparison. -/
def strLt (a b : String) : Bool :=
  charsLt a.data b.data

/-- Insertion into a strictly sorted duplicate-free list. -/
def insertSortedDistinct (x : String) : List String → List String
  | [] => [x]
  | y :: ys =>
    if x = y then y :: ys
    else if strLt x y then x :: y :: ys
    else y :: insertSortedDistinct x ys

/-- The sorted list of the distinct elements: models Python
`sorted(list(s))` applied to the set `s` of the accumulated elements (the
set removes duplicates, `sorted` orders them). -/
def sortedDistinct : List String → List String
  | [] => []
  | x :: xs => insertSortedDistinct x (sortedDistinct xs)

theorem charsLt_irrefl (l : List Char) : charsLt l l = false := by
  induction l with
  | nil => rfl
  | cons c cs ih => simp [charsLt, ih]

theorem charsLt_trans :
    ∀ a b c : List Char, charsLt a b = true → charsLt b c = true → charsLt a c = true
  | [], [], _, h, _ => by simp [charsLt] at h
  | [], _ :: _, [], _, h => by simp [charsLt] at h
  | [], _ :: _, _ :: _, _, _ => rfl
  | _ :: _, [], _, h, _ => by simp [charsLt] at h
  | _ :: _, _ :: _, [], _, h => by simp [charsLt] at h
  | a :: as, b :: bs, c :: cs, h1, h2 => by
    simp only [charsLt] at h1 h2 ⊢
    by_cases hab : a = b
    · subst hab
      rw [if_pos rfl] at h1
      by_cases hbc : a = c
      · subst hbc
        rw [if_pos rfl] at h2 ⊢
        exact charsLt_trans as bs cs h1 h2
      · rw [if_neg hbc] at h2 ⊢
        exact h2
    · rw [if_neg hab] at h1
      by_cases hbc : b = c
      · subst hbc
        rw [if_neg hab]
        exact h1
      · rw [if_neg hbc] at h2
        have hac : a < c := lt_trans (of_decide_eq_true h1) (of_decide_eq_true h2)
        have hne : a ≠ c := ne_of_lt hac
        rw [if_neg hne]
        exact decide_eq_true hac

theorem charsLt_eq_of_not_lt :
    ∀ a b : List Char, charsLt a b = false → charsLt b a = false → a = b
  | [], [], _, _ => rfl
  | [], _ :: _, h, _ => by simp [charsLt] at h
  | _ :: _, [], _, h => by simp [charsLt] at h
  | a :: as, b :: bs, h1, h2 => by
    simp only [charsLt] at h1 h2
    by_cases hab : a = b
    · subst hab
      rw [if_pos rfl] at h1 h2
      rw [charsLt_eq_of_not_lt as bs h1 h2]
    · rw [if_neg hab] at h1
      rw [if_neg (Ne.symm hab)] at h2
      rcases lt_trichotomy a b with h | h | h
      · exact absurd (decide_eq_true h) (by rw [h1]; simp)
      · exact absurd h hab
      · exact absurd (decide_eq_true h) (by rw [h2]; simp)

theorem strLt_irrefl (a : String) : strLt a a = false :=
  charsLt_irrefl a.data

theorem strLt_trans {a b c : String} (h1 : strLt a b = true) (h2 : strLt b c = true) :
    strLt a c = true :=
  charsLt_trans a.data b.data c.data h1 h2

theorem strLt_eq_of_not_lt {a b : String} (h1 : strLt a b = false)
    (h2 : strLt b a = false) : a = b := by
  cases a with
  | mk la =>
    cases b with
    | mk lb =>
      rw [charsLt_eq_of_not_lt la lb h1 h2]

theorem strLt_ne {a b : String} (h : strLt a b = true) : a ≠ b := by
  intro he
  subst he
  rw [strLt_irrefl a] at h
  exact Bool.false_ne_true h

/-- Decade label of a year: `f"{(m['year'] // 10) * 10}s"`, Python floor
division. -/
def decadeLabel (year : Int) : String :=
  toString (Int.fdiv year 10 * 10) ++ "s"

/-- The `/library-stats` response payload. -/
structure LibraryStats where
  total_movies : Nat
  unwatched_movies : Nat
  genres : List String
  decades_available : List String
  last_updated : String
deriving DecidableEq

/-- `/library-stats` (`app.py:344`): counts, the sorted distinct genres,
the sorted distinct decade labels, the refresh timestamp.  A movie with a
falsy (`0`, modelling also `None`) year contributes no decade label and a
falsy (empty) genre list contributes no genres; the Python sets are
accumulated into a list and sorted/deduplicated at the end. -/
def libraryStats (snap : Snapshot) : LibraryStats :=
  { total_movies := snap.movies.length
    unwatched_movies := (snap.movies.filter (fun m => !m.watched)).length
    genres := sortedDistinct (snap.movies.foldl
      (fun acc m => if m.genres.isEmpty then acc else acc ++ m.genres) [])
    decades_available := sortedDistinct (snap.movies.foldl
      (fun acc m => if m.year = 0 then acc else acc ++ [decadeLabel m.year]) [])
    last_updated := snap.last_refresh }

theorem strLt_of_not_lt_of_ne {x y : String} (h : strLt x y = false) (hne : x ≠ y) :
    strLt y x = true := by
  cases hyx : strLt y x with
  | true => rfl
  | false => exact absurd (strLt_eq_of_not_lt h hyx) hne

theorem mem_insertSortedDistinct (x a : String) (l : List String) :
    a ∈ insertSortedDistinct x l ↔ a = x ∨ a ∈ l := by
  induction l with
  | nil => simp [insertSortedDistinct]
  | cons y ys ih =>
    rw [insertSortedDistinct]
    by_cases hxy : x = y
    · rw [if_pos hxy]
      subst hxy
      simp only [List.mem_cons]
      tauto
    · rw [if_neg hxy]
      by_cases hlt : strLt x y = true
      · rw [if_pos hlt]
        simp only [List.mem_cons]
      · rw [if_neg hlt]
        simp only [List.mem_cons, ih]
        tauto

theorem pairwise_insertSortedDistinct (x : String) (l : List String)
    (h : l.Pairwise (fun a b => strLt a b = true)) :
    (insertSortedDistinct x l).Pairwise (fun a b => strLt a b = true) := by
  induction l with
  | nil => simp [insertSortedDistinct]
  | cons y ys ih =>
    rw [insertSortedDistinct]
    rcases List.pairwise_cons.mp h with ⟨hy, hys⟩
    by_cases hxy : x = y
    · rw [if_pos hxy]
      exact h
    · rw [if_neg hxy]
      by_cases hlt : strLt x y = true
      · rw [if_pos hlt]
        refine List.pairwise_cons.mpr ⟨?_, h⟩
        intro b hb
        rcases List.mem_cons.mp hb with hb | hb
        · rw [hb]; exact hlt
        · exact strLt_trans hlt (hy b hb)
      · rw [if_neg hlt]
        have hyx : strLt y x = true :=
          strLt_of_not_lt_of_ne (Bool.eq_false_iff.mpr hlt) hxy
        refine List.pairwise_cons.mpr ⟨?_, ih hys⟩
        intro b hb
        rcases (mem_insertSortedDistinct x b ys).mp hb with hb | hb
        · rw [hb]; exact hyx
        · exact hy b hb

theorem mem_sortedDistinct (a : String) (l : List String) :
    a ∈ sortedDistinct l ↔ a ∈ l := by
  induction l with
  | nil => simp [sortedDistinct]
  | cons x xs ih =>
    rw [sortedDistinct, mem_insertSortedDistinct, ih]
    simp

theorem pairwise_sortedDistinct (l : List String) :
    (sortedDistinct l).Pairwise (fun a b => strLt a b = true) := by
  induction l with
  | nil => simp [sortedDistinct]
  | cons x xs ih => exact pairwise_insertSortedDistinct x _ ih

/-- Two lists with the same members have the same sorted distinct form. -/
theorem sortedDistinct_ext (l1 l2 : List String)
    (h : ∀ a, a ∈ l1 ↔ a ∈ l2) : sortedDistinct l1 = sortedDistinct l2 := by
  haveI : IsAntisymm String (fun a b => strLt a b = true) :=
    ⟨fun a b h1 h2 => absurd (strLt_trans h1 h2)
      (by rw [strLt_irrefl]; exact Bool.false_ne_true)⟩
  have hp1 := pairwise_sortedDistinct l1
  have hp2 := pairwise_sortedDistinct l2
  have hn1 : (sortedDistinct l1).Nodup := hp1.imp strLt_ne
  have hn2 : (sortedDistinct l2).Nodup := hp2.imp strLt_ne
  have hperm : (sortedDistinct l1).Perm (sortedDistinct l2) := by
    rw [List.perm_ext_iff_of_nodup hn1 hn2]
    intro a
    rw [mem_sortedDistinct, mem_sortedDistinct]
    exact h a
  exact List.eq_of_perm_of_sorted hperm hp1 hp2

theorem mem_genresAcc (movies : List Movie) (init : List String) (a : String) :
    a ∈ movies.foldl
        (fun acc m => if m.genres.isEmpty then acc else acc ++ m.genres) init ↔
      a ∈ init ∨ ∃ m ∈ movies, a ∈ m.genres := by
  induction movies generalizing init with
  | nil => simp
  | cons m rest ih =>
    simp only [List.foldl_cons]
    rw [ih]
    by_cases hE : m.genres.isEmpty
    · have hnil : m.genres = [] := List.isEmpty_iff.mp hE
      simp only [hE, if_pos, List.mem_cons]
      simp [hnil]
    · simp only [hE, if_neg, List.mem_append, List.mem_cons]
      simp
      tauto

theorem mem_decadesAcc (movies : List Movie) (init : List String) (a : String) :
    a ∈ movies.foldl
        (fun acc m => if m.year = 0 then acc else acc ++ [decadeLabel m.year]) init ↔
      a ∈ init ∨ ∃ m ∈ movies, m.year ≠ 0 ∧ a = decadeLabel m.year := by
  induction movies generalizing init with
  | nil => simp
  | cons m rest ih =>
    simp only [List.foldl_cons]
    rw [ih]
    by_cases h0 : m.year = 0
    · simp [h0]
    · simp [h0, List.mem_append]
      tauto

theorem mem_genresFlat (movies : List Movie) (a : String) :
    a ∈ movies.foldr (fun m acc => m.genres ++ acc) [] ↔ ∃ m ∈ movies, a ∈ m.genres := by
  induction movies with
  | nil => simp
  | cons m rest ih => simp [ih]

/-- Three unwatched movies carrying only a year. -/
def movie1994 : Movie :=
  { title := "M94", year := 1994, rating := none, genres := [], runtime := 100,
    director := none, actors := [], watched := false, added_at := none }

def movie1999 : Movie :=
  { title := "M99", year := 1999, rating := none, genres := [], runtime := 100,
    director := none, actors := [], watched := false, added_at := none }

def movie2001 : Movie :=
  { title := "M01", year := 2001, rating := none, genres := [], runtime := 100,
    director := none, actors := [], watched := true, added_at := none }

/-- A snapshot holding exactly the three movies above. -/
def threeYearSnap : Snapshot :=
  { movies := [movie1994, movie1999, movie2001], last_refresh := "t" }

/-! ## C9: the library statistics -/

/-- C9: the stats payload holds the total count, the unwatched count, the
sorted distinct genres over all movies, the sorted distinct decade labels
`floor(year/10)*10` with trailing 's' (movies with no year contribute no
label), and the refresh timestamp; years `[1994, 1999, 2001]` yield exactly
the decades `["1990s", "2000s"]`. -/
theorem c9_library_stats (snap : Snapshot) :
    (libraryStats snap).total_movies = snap.movies.length ∧
    (libraryStats snap).unwatched_movies
      = (snap.movies.filter (fun m => !m.watched)).length ∧
    (libraryStats snap).genres
      = sortedDistinct (snap.movies.foldr (fun m acc => m.genres ++ acc) []) ∧
    (libraryStats snap).decades_available
      = sortedDistinct ((snap.movies.filter (fun m => m.year != 0)).map
          (fun m => decadeLabel m.year)) ∧
    (libraryStats snap).last_updated = snap.last_refresh ∧
    (libraryStats threeYearSnap).decades_available = ["1990s", "2000s"] := by
  refine ⟨rfl, rfl, ?_, ?_, rfl, by decide⟩
  · apply sortedDistinct_ext
    intro a
    rw [mem_genresAcc, mem_genresFlat]
    simp
  · apply sortedDistinct_ext
    intro a
    rw [mem_decadesAcc]
    simp only [List.mem_map, List.mem_filter, bne_iff_ne, ne_eq, false_or]
    constructor
    · rintro (h | ⟨m, hm, h0, ha⟩)
      · simp at h
      · exact ⟨m, ⟨hm, h0⟩, ha.symm⟩
    · rintro ⟨m, ⟨hm, h0⟩, ha⟩
      exact Or.inr ⟨m, hm, h0, ha.symm⟩

/-! ## require_api_key (`app.py:27`) -/

/-- The credential-bearing parts of an inbound request. -/
structure RequestAuth where
  x_api_key : Option String
  api_key_param : Option String
  authorization : Option String
deriving DecidableEq

/-- Python `a or b` over `None`/string values: `b` when `a` is falsy
(absent or empty). -/
def pyOrStr (a b : Option String) : Option String :=
  match a with
  | none => b
  | some s => if s.isEmpty then b else some s

/-- Python `s.startswith(pre)`. -/
def pyStartsWith (s pre : String) : Bool :=
  leadMatch pre.data s.data

/-- Python `s.split(' ')`: split on every single space, keeping empty
pieces (`"Bearer ".split(' ') == ['Bearer', '']`). -/
def splitOnSpace : List Char → List (List Char)
  | [] => [[]]
  | c :: rest =>
    let r := splitOnSpace rest
    if c = ' ' then [] :: r
    else
      match r with
      | [] => [[c]]
      | h :: t => (c :: h) :: t

def pySplitSpace (s : String) : List String :=
  (splitOnSpace s.data).map (fun l => ⟨l⟩)

/-- The credential the decorator ends up comparing (`app.py:35`):
header/query value, replaced by `auth_header.split(' ')[1]` whenever the
Authorization header starts with `'Bearer '`.  (Under that guard the header
contains a space, so index 1 always exists; the default is unreachable.) -/
def selectedCredential (r : RequestAuth) : Option String :=
  let rk := pyOrStr r.x_api_key r.api_key_param
  match r.authorization with
  | none => rk
  | some h =>
    if pyStartsWith h ("Bearer ") then some ((pySplitSpace h).getD 1 (""))
    else rk

/-- The decorator decision (`app.py:27`): `true` runs the route, `false` is
the 401 branch; no configured key (absent or empty) bypasses the check. -/
def requireApiKey (api_key : Option String) (r : RequestAuth) : Bool :=
  match api_key with
  | none => true
  | some k =>
    if k.isEmpty then true
    else
      match selectedCredential r with
      | none => false
      | some rk => !rk.isEmpty && rk == k

/-- A request carrying the correct X-API-KEY header and a non-matching
Bearer token. -/
def bearerRequest : RequestAuth :=
  { x_api_key := some ("secret"), api_key_param := none,
    authorization := some ("Bearer wrong") }

/-! ## C10: the bearer token replaces any other credential -/

/-- C10: with a configured key, a request whose Authorization header starts
with `'Bearer '` is decided by the bearer token alone (other credentials
are ignored); in general a request is allowed iff the finally-selected
credential equals the configured key, so it is rejected iff that credential
is missing or differs.  Concretely, a correct X-API-KEY loses to a
non-matching Bearer token. -/
theorem c10_bearer_replaces_credentials (k : String) (hk : k ≠ "") (r : RequestAuth)
    (h : String) :
    (r.authorization = some h → pyStartsWith h ("Bearer ") = true →
      requireApiKey (some k) r =
        requireApiKey (some k)
          { x_api_key := none, api_key_param := none, authorization := r.authorization }) ∧
    (requireApiKey (some k) r = true ↔ selectedCredential r = some k) ∧
    (requireApiKey (some ("secret")) bearerRequest = false ∧
      pyOrStr bearerRequest.x_api_key bearerRequest.api_key_param = some ("secret")) := by
  have hkE : k.isEmpty = false := by
    cases hE : k.isEmpty with
    | false => rfl
    | true => exact absurd ((String.isEmpty_iff k).mp hE) hk
  refine ⟨?_, ?_, by decide, by decide⟩
  · intro hauth hbear
    have hsel : selectedCredential r =
        selectedCredential
          { x_api_key := none, api_key_param := none, authorization := r.authorization } := by
      unfold selectedCredential
      rw [hauth]
      simp only [if_pos hbear]
    unfold requireApiKey
    rw [hsel]
  · simp only [requireApiKey, hkE, Bool.false_eq_true, if_false]
    cases hsel : selectedCredential r with
    | none => simp
    | some rk =>
      simp only [Option.some.injEq, Bool.and_eq_true, Bool.not_eq_true', beq_iff_eq]
      constructor
      · exact fun hp => hp.2
      · intro he
        subst he
        refine ⟨?_, rfl⟩
        cases hE : rk.isEmpty with
        | false => rfl
        | true => exact absurd ((String.isEmpty_iff rk).mp hE) hk

theorem c10_witness :
    (("secret" : String) ≠ "") ∧
    (requireApiKey (some ("secret")) bearerRequest = true ↔
      selectedCredential bearerRequest = some ("secret")) :=
  ⟨by decide,
   (c10_bearer_replaces_credentials ("secret") (by decide) bearerRequest
      ("Bearer wrong")).2.1⟩

end Moodarr
